import Mathlib

set_option maxRecDepth 100000

/-!
Shallow embedding of the gop2b client library (Go) for verification.

The repository is a client for the p2pb2b cryptocurrency exchange.  The
files embedded here are `http.go` (transport: `sendPost`, `sendGet`,
`sendRequest`, `mergeHeaders`, `checkHTTPStatus`, WebSocket request
builders) and the endpoint/constructor file (`PostBalances`,
`PostCurrencyBalance`, `newClientWithURL`, `NewClient`, the `Request` and
`Response` envelopes).

Modelling conventions:
* Bytes are `Nat` values below 256; `[]byte` is `List Nat`.
* A Go `map[string]string` is an association list with unique keys
  (`HMap`); `mapGet` returns the zero value `""` for a missing key, and
  `mapSet` mirrors Go map assignment (overwrite in place or append).
  A possibly-nil map is `Option HMap`.
* `http.Header` is modelled as the sequence of `Header.Add` calls, i.e. a
  `List (String × String)`; Go canonicalises header-name case inside
  `Add`, which is irrelevant for the properties proved here (HTTP header
  names are case-insensitive), so keys are kept verbatim.
* Go map iteration order is unspecified; the embedding iterates the
  association list in order, and only order-insensitive properties
  (membership, counts, lookups) are stated about iteration results.
* `time.Now()` is passed in as an explicit parameter
  (`nowMilli`/`nowSec`).
* The cryptographic and encoding primitives from Go's standard library
  (`encoding/base64` StdEncoding, `encoding/hex`, `crypto/hmac`,
  `crypto/sha512`) are implemented executably below, following
  FIPS 180-4 and RFC 2104, and validated against published test vectors
  (RFC 4231) at the end of the file.
-/

/-! ## Bytes and encodings -/

/-- UTF-8 encoding of a character, as Go's `[]byte(string)` produces. -/
def utf8Bytes (c : Char) : List Nat :=
  let n := c.toNat
  if n < 0x80 then [n]
  else if n < 0x800 then
    [0xC0 + n / 0x40, 0x80 + n % 0x40]
  else if n < 0x10000 then
    [0xE0 + n / 0x1000, 0x80 + n / 0x40 % 0x40, 0x80 + n % 0x40]
  else
    [0xF0 + n / 0x40000, 0x80 + n / 0x1000 % 0x40, 0x80 + n / 0x40 % 0x40,
      0x80 + n % 0x40]

/-- The byte sequence of a Go string (`[]byte(s)`, UTF-8). -/
def strBytes (s : String) : List Nat :=
  s.data.foldr (fun c acc => utf8Bytes c ++ acc) []

/-- Character of the standard base64 alphabet at index `n < 64`. -/
def b64Char (n : Nat) : Char :=
  if n < 26 then Char.ofNat (65 + n)
  else if n < 52 then Char.ofNat (97 + (n - 26))
  else if n < 62 then Char.ofNat (48 + (n - 52))
  else if n = 62 then '+'
  else '/'

/-- Go `base64.StdEncoding.EncodeToString`: standard alphabet with `=`
padding. -/
def base64Encode : List Nat → String
  | b1 :: b2 :: b3 :: rest =>
    String.mk [b64Char (b1 / 4), b64Char (b1 % 4 * 16 + b2 / 16),
      b64Char (b2 % 16 * 4 + b3 / 64), b64Char (b3 % 64)] ++ base64Encode rest
  | [b1, b2] =>
    String.mk [b64Char (b1 / 4), b64Char (b1 % 4 * 16 + b2 / 16),
      b64Char (b2 % 16 * 4), '=']
  | [b1] =>
    String.mk [b64Char (b1 / 4), b64Char (b1 % 4 * 16), '=', '=']
  | [] => ""

/-- Lowercase hexadecimal digit for `n < 16`. -/
def hexChar (n : Nat) : Char :=
  if n < 10 then Char.ofNat (48 + n) else Char.ofNat (87 + n)

/-- Go `hex.EncodeToString`: two lowercase hex digits per byte. -/
def hexEncode (l : List Nat) : String :=
  String.mk (l.foldr (fun b acc => hexChar (b / 16) :: hexChar (b % 16) :: acc) [])

/-! ## SHA-512 (FIPS 180-4) and HMAC (RFC 2104) -/

/-- Modulus of 64-bit words. -/
def M64 : Nat := 2 ^ 64

/-- 64-bit modular addition. -/
def add64 (a b : Nat) : Nat := (a + b) % M64

/-- 64-bit bitwise complement. -/
def not64 (a : Nat) : Nat := a ^^^ (M64 - 1)

/-- Right rotation of a 64-bit word. -/
def rotr64 (x n : Nat) : Nat := ((x >>> n) ||| (x <<< (64 - n))) % M64

/-- SHA-512 Σ0. -/
def bigSigma0 (x : Nat) : Nat := rotr64 x 28 ^^^ rotr64 x 34 ^^^ rotr64 x 39

/-- SHA-512 Σ1. -/
def bigSigma1 (x : Nat) : Nat := rotr64 x 14 ^^^ rotr64 x 18 ^^^ rotr64 x 41

/-- SHA-512 σ0. -/
def smallSigma0 (x : Nat) : Nat := rotr64 x 1 ^^^ rotr64 x 8 ^^^ (x >>> 7)

/-- SHA-512 σ1. -/
def smallSigma1 (x : Nat) : Nat := rotr64 x 19 ^^^ rotr64 x 61 ^^^ (x >>> 6)

/-- SHA-2 choice function. -/
def ch512 (x y z : Nat) : Nat := (x &&& y) ^^^ (not64 x &&& z)

/-- SHA-2 majority function. -/
def maj512 (x y z : Nat) : Nat := (x &&& y) ^^^ (x &&& z) ^^^ (y &&& z)

/-- The 80 SHA-512 round constants (fractional parts of cube roots of the
first 80 primes). -/
def K512 : List Nat :=
  [4794697086780616226, 8158064640168781261, 13096744586834688815,
  16840607885511220156, 4131703408338449720, 6480981068601479193,
  10538285296894168987, 12329834152419229976, 15566598209576043074,
  1334009975649890238, 2608012711638119052, 6128411473006802146,
  8268148722764581231, 9286055187155687089, 11230858885718282805,
  13951009754708518548, 16472876342353939154, 17275323862435702243,
  1135362057144423861, 2597628984639134821, 3308224258029322869,
  5365058923640841347, 6679025012923562964, 8573033837759648693,
  10970295158949994411, 12119686244451234320, 12683024718118986047,
  13788192230050041572, 14330467153632333762, 15395433587784984357,
  489312712824947311, 1452737877330783856, 2861767655752347644,
  3322285676063803686, 5560940570517711597, 5996557281743188959,
  7280758554555802590, 8532644243296465576, 9350256976987008742,
  10552545826968843579, 11727347734174303076, 12113106623233404929,
  14000437183269869457, 14369950271660146224, 15101387698204529176,
  15463397548674623760, 17586052441742319658, 1182934255886127544,
  1847814050463011016, 2177327727835720531, 2830643537854262169,
  3796741975233480872, 4115178125766777443, 5681478168544905931,
  6601373596472566643, 7507060721942968483, 8399075790359081724,
  8693463985226723168, 9568029438360202098, 10144078919501101548,
  10430055236837252648, 11840083180663258601, 13761210420658862357,
  14299343276471374635, 14566680578165727644, 15097957966210449927,
  16922976911328602910, 17689382322260857208, 500013540394364858,
  748580250866718886, 1242879168328830382, 1977374033974150939,
  2944078676154940804, 3659926193048069267, 4368137639120453308,
  4836135668995329356, 5532061633213252278, 6448918945643986474,
  6902733635092675308, 7801388544844847127]

/-- Working state of the SHA-512 compression function. -/
structure Sha2State where
  a : Nat
  b : Nat
  c : Nat
  d : Nat
  e : Nat
  f : Nat
  g : Nat
  h : Nat
deriving Repr, DecidableEq

/-- SHA-512 initial hash value (fractional parts of square roots of the
first 8 primes). -/
def H512 : Sha2State :=
  ⟨7640891576956012808, 13503953896175478587, 4354685564936845355, 11912009170470909681,
   5840696475078001361, 11170449401992604703, 2270897969802886507, 6620516959819538809⟩

/-- `k` bytes of `n`, big-endian. -/
def beBytes : Nat → Nat → List Nat
  | 0, _ => []
  | k + 1, n => beBytes k (n / 256) ++ [n % 256]

/-- A big-endian byte sequence as one number. -/
def bytesToWord (bs : List Nat) : Nat := bs.foldl (fun a b => a * 256 + b) 0

/-- Split a list into chunks of `n` elements (fuel-driven). -/
def chunksGo (n : Nat) : Nat → List α → List (List α)
  | 0, _ => []
  | _, [] => []
  | fuel + 1, l => l.take n :: chunksGo n fuel (l.drop n)

/-- Split a list into chunks of `n` elements. -/
def chunksOf (n : Nat) (l : List α) : List (List α) := chunksGo n l.length l

/-- SHA-512 padding: append `0x80`, zeros, and the 128-bit big-endian bit
length so the total is a multiple of 128 bytes. -/
def shaPad (msg : List Nat) : List Nat :=
  let L := msg.length
  msg ++ [0x80] ++ List.replicate ((128 - (L + 17) % 128) % 128) 0 ++
    beBytes 16 (L * 8)

/-- Extend the 16 message words by `n` more schedule words. -/
def scheduleGo : Nat → List Nat → List Nat
  | 0, w => w
  | n + 1, w =>
    let t := w.length
    let x := add64 (add64 (smallSigma1 (w.getD (t - 2) 0)) (w.getD (t - 7) 0))
      (add64 (smallSigma0 (w.getD (t - 15) 0)) (w.getD (t - 16) 0))
    scheduleGo n (w ++ [x])

/-- One SHA-512 round. -/
def sha512Round (s : Sha2State) (k w : Nat) : Sha2State :=
  let t1 := add64 s.h (add64 (bigSigma1 s.e) (add64 (ch512 s.e s.f s.g) (add64 k w)))
  let t2 := add64 (bigSigma0 s.a) (maj512 s.a s.b s.c)
  ⟨add64 t1 t2, s.a, s.b, s.c, add64 s.d t1, s.e, s.f, s.g⟩

/-- Compress one 1024-bit block (given as 16 words) into the chaining
state. -/
def compressBlock (H : Sha2State) (w16 : List Nat) : Sha2State :=
  let w := scheduleGo 64 w16
  let s := (K512.zip w).foldl (fun s kw => sha512Round s kw.1 kw.2) H
  ⟨add64 H.a s.a, add64 H.b s.b, add64 H.c s.c, add64 H.d s.d,
   add64 H.e s.e, add64 H.f s.f, add64 H.g s.g, add64 H.h s.h⟩

/-- SHA-512 of a byte sequence (64-byte digest). -/
def sha512 (msg : List Nat) : List Nat :=
  let blocks := chunksOf 128 (shaPad msg)
  let Hf := blocks.foldl
    (fun h blk => compressBlock h ((chunksOf 8 blk).map bytesToWord)) H512
  beBytes 8 Hf.a ++ beBytes 8 Hf.b ++ beBytes 8 Hf.c ++ beBytes 8 Hf.d ++
    beBytes 8 Hf.e ++ beBytes 8 Hf.f ++ beBytes 8 Hf.g ++ beBytes 8 Hf.h

/-- HMAC-SHA512 (RFC 2104; block size 128 bytes), as Go's
`hmac.New(sha512.New, key)` computes. -/
def hmacSHA512 (key msg : List Nat) : List Nat :=
  let k1 := if 128 < key.length then sha512 key else key
  let k0 := k1 ++ List.replicate (128 - k1.length) 0
  let ipad := k0.map (fun b => b ^^^ 0x36)
  let opad := k0.map (fun b => b ^^^ 0x5c)
  sha512 (opad ++ sha512 (ipad ++ msg))

/-! ## Go maps (`map[string]string`) -/

/-- A Go `map[string]string`: an association list kept with unique keys. -/
abbrev HMap := List (String × String)

/-- Go map indexing `m[k]`: the stored value, or the zero value `""` when
the key is absent. -/
def mapGet : HMap → String → String
  | [], _ => ""
  | (k', v') :: t, k => if k' = k then v' else mapGet t k

/-- Go map assignment `m[k] = v`: overwrite the entry in place, or append
a new one. -/
def mapSet : HMap → String → String → HMap
  | [], k, v => [(k, v)]
  | (k', v') :: t, k, v => if k' = k then (k, v) :: t else (k', v') :: mapSet t k v

/-- The keys of a map. -/
def mapKeys (m : HMap) : List String := m.map Prod.fst

/-- Number of times a key occurs in a header multimap. -/
def countKey (l : List (String × String)) (k : String) : Nat :=
  (l.map Prod.fst).count k

/-- Well-formedness of the association-list representation: each key at
most once (guaranteed for real Go maps). -/
def nodupKeys (m : HMap) : Prop := (mapKeys m).Nodup

instance (m : HMap) : Decidable (nodupKeys m) := by
  unfold nodupKeys; infer_instance





/-! ## Repository constants and data model (`src/http.go`, client file) -/

/-- HTTP header name for the account API key. -/
def HeaderXTxcAPIKey : String := "X-TXC-APIKEY"

/-- HTTP header name for the base64-encoded body. -/
def HeaderXTxcPayload : String := "X-TXC-PAYLOAD"

/-- HTTP header name for the HMAC-SHA512 signature of the payload. -/
def HeaderXTxcSignature : String := "X-TXC-SIGNATURE"

/-- `baseAPI`: the p2pb2b API endpoint. -/
def baseAPI : String := "https://api.p2pb2b.com/api/v2"

/-- `websocketApi`: the p2pb2b WebSocket endpoint. -/
def websocketApi : String := "wss://apiws.p2pb2b.com/"

/-- The `auth` struct: API key and secret. -/
structure auth where
  APIKey : String
  APISecret : String
deriving Repr, DecidableEq

/-- Redirect behaviour of the embedded `http.Client`.  The repository's
constructor installs a `CheckRedirect` callback that always returns
`http.ErrUseLastResponse`; a zero-value Go client (nil `CheckRedirect`)
follows up to 10 redirects. -/
inductive RedirectPolicy where
  | followDefault
  | useLastResponse
deriving Repr, DecidableEq

/-- The `client` struct.  The `http *http.Client` field is represented by
its redirect policy, the only configuration the repository sets on it. -/
structure client where
  checkRedirect : RedirectPolicy
  auth : Option auth
  url : String
  wsUrl : String
deriving Repr, DecidableEq

/-- The `response` struct returned by the transport.  `Body` is the byte
content readable from the `io.ReadCloser`, kept as the string
`string(bodyBytes)` that the endpoint methods produce from it. -/
structure response where
  Header : List (String × String)
  Body : String
  StatusCode : Int
  Status : String
deriving Repr, DecidableEq

/-- The `wsRequest` struct (JSON-RPC-style WebSocket request). -/
structure wsRequest where
  Method : String
  Params : List String
  Id : Int
deriving Repr, DecidableEq

/-- `newWsRequest`: builds a request with `Params` starting from the empty
slice and appending each variadic argument, then stamps `Id` with
`time.Now().Unix()` (passed here as `nowSec`). -/
def newWsRequest (nowSec : Int) (method : String) (params : List String) : wsRequest :=
  let req : wsRequest := { Method := method, Params := [], Id := 0 }
  let req := { req with Params := params.foldl (fun ps p => ps ++ [p]) req.Params }
  { req with Id := nowSec }

/-- `newPingRequest`: a `server.ping` request with no params. -/
def newPingRequest (nowSec : Int) : wsRequest :=
  newWsRequest nowSec "server.ping" []

/-- `newUnsubscribeRequest`: appends the literal suffix `.unsubscribe` to
the channel name. -/
def newUnsubscribeRequest (nowSec : Int) (endpoint : String) : wsRequest :=
  newWsRequest nowSec (endpoint ++ ".unsubscribe") []

/-- Go's rendering `%+v` of an `[]int` argument: values in brackets,
space-separated. -/
def fmtIntList (l : List Int) : String :=
  "[" ++ String.intercalate " " (l.map toString) ++ "]"

/-- The text `fmt.Errorf("http response status != %+v, got %d", …)`
produces in `checkHTTPStatus`. -/
def statusErrText (expected : List Int) (got : Int) : String :=
  "http response status != " ++ fmtIntList expected ++ ", got " ++ toString got

/-- `checkHTTPStatus`: returns nil (`none`) as soon as the status code
matches one of the expected codes, otherwise the formatted error. -/
def checkHTTPStatus (resp : response) (expected : List Int) : Option String :=
  if expected.any (fun e => resp.StatusCode == e) then none
  else some (statusErrText expected resp.StatusCode)

/-- One iteration of the `mergeHeaders` loop: an entry of the second map
is written only where the first map holds the zero value `""`. -/
def mergeStep (acc : HMap) (kv : String × String) : HMap :=
  if mapGet acc kv.1 = "" then mapSet acc kv.1 kv.2 else acc

/-- The `mergeHeaders` loop over all entries of the second map. -/
def mergeList (f s : HMap) : HMap := s.foldl mergeStep f

/-- `mergeHeaders`: nil-handling as in the source; for non-nil maps, each
entry of `secondHeaders` is written into `firstHeaders` only where
`firstHeaders[k]` is the zero value `""`.  The Go function mutates and
returns `firstHeaders`; here the updated map is returned. -/
def mergeHeaders (firstHeaders secondHeaders : Option HMap) : Option HMap :=
  match firstHeaders, secondHeaders with
  | f, none => f
  | none, some s => some s
  | some f, some s => some (mergeList f s)

/-- The map `thisHeaders` built inside `sendRequest`: `Content-type`
always, plus the API-key header when credentials are present. -/
def thisHeaders (c : client) : HMap :=
  let t := mapSet [] "Content-type" "application/json"
  match c.auth with
  | some a => mapSet t HeaderXTxcAPIKey a.APIKey
  | none => t

/-- What `sendRequest` does before handing the request to `c.http.Do`:
`reqHeaders` is the sequence of `request.Header.Add` calls (a multimap),
`merged` is `headers := mergeHeaders(additionalHeaders, thisHeaders)` —
the same map object as `additionalHeaders` when that was non-nil. -/
structure SentRequest where
  reqHeaders : List (String × String)
  merged : HMap
deriving Repr, DecidableEq

/-- `sendRequest` (header construction): first loop adds every entry of
`additionalHeaders`, then the merged map is added entry by entry. -/
def sendRequest (c : client) (additionalHeaders : Option HMap) : SentRequest :=
  let h1 := (additionalHeaders.getD []).foldl
    (fun acc kv => acc ++ [kv]) ([] : List (String × String))
  let merged := (mergeHeaders additionalHeaders (some (thisHeaders c))).getD []
  let h2 := merged.foldl (fun acc kv => acc ++ [kv]) h1
  ⟨h2, merged⟩

/-- Result of `sendPost` up to the network call: the outgoing header
multimap, the merged header map, the body bytes re-sent, and the state of
the caller's `additionalHeaders` map after the call (`none` iff the caller
passed nil; the Go code aliases and mutates the caller's map). -/
structure PostSent where
  reqHeaders : List (String × String)
  merged : HMap
  body : List Nat
  addlAfter : Option HMap
deriving Repr, DecidableEq

/-- `sendPost`: reads the body, replaces a nil header map by a fresh one,
stores the base64 payload under `X-TXC-PAYLOAD`, and, when credentials are
present, the lowercase-hex HMAC-SHA512 (keyed by the secret) of the stored
base64 string under `X-TXC-SIGNATURE`; then delegates to `sendRequest`. -/
def sendPost (c : client) (additionalHeaders : Option HMap) (bodyBytes : List Nat) :
    PostSent :=
  let m0 := additionalHeaders.getD []
  let m1 := mapSet m0 HeaderXTxcPayload (base64Encode bodyBytes)
  let m2 := match c.auth with
    | some a =>
      let signature :=
        hexEncode (hmacSHA512 (strBytes a.APISecret) (strBytes (mapGet m1 HeaderXTxcPayload)))
      mapSet m1 HeaderXTxcSignature signature
    | none => m1
  let sent := sendRequest c (some m2)
  { reqHeaders := sent.reqHeaders, merged := sent.merged, body := bodyBytes,
    addlAfter := match additionalHeaders with
      | none => none
      | some _ => some sent.merged }

/-- `sendGet`: builds a GET request and delegates straight to
`sendRequest` with the caller's headers; it computes nothing itself. -/
def sendGet (c : client) (additionalHeaders : Option HMap) : SentRequest :=
  sendRequest c additionalHeaders

/-! ## Envelopes, endpoint DTOs and JSON serialization -/

/-- The shared `Response` envelope. -/
structure Response where
  Success : Bool
  Message : String
deriving Repr, DecidableEq

/-- The shared `Request` envelope: API path and nonce. -/
structure Request where
  Request : String
  Nonce : String
deriving Repr, DecidableEq

/-- An account balance; the `decimal.Decimal` fields travel as JSON
strings and are kept here in their string form. -/
structure AccountBalance where
  Available : String
  Freeze : String
deriving Repr, DecidableEq

/-- Response of `POST /account/balances`. -/
structure AccountBalancesResp where
  Resp : Response
  Result : List (String × AccountBalance)
deriving Repr, DecidableEq

/-- Request of `POST /account/balances`: just the envelope. -/
structure AccountBalancesRequest where
  Request : Request
deriving Repr, DecidableEq

/-- Response of `POST /account/balance`. -/
structure AccountCurrencyBalanceResp where
  Resp : Response
  Result : AccountBalance
deriving Repr, DecidableEq

/-- Request of `POST /account/balance`: envelope plus currency. -/
structure AccountCurrencyBalanceRequest where
  Request : Request
  Currency : String
deriving Repr, DecidableEq

/-- JSON escaping of one character as Go's default (HTML-escaping)
`encoding/json` encoder performs. -/
def jsonEscapeChar (c : Char) : List Char :=
  if c = '"' then ['\\', '"']
  else if c = '\\' then ['\\', '\\']
  else if c = '\n' then ['\\', 'n']
  else if c = '\r' then ['\\', 'r']
  else if c = '\t' then ['\\', 't']
  else if c.toNat < 0x20 then
    ['\\', 'u', '0', '0', hexChar (c.toNat / 16), hexChar (c.toNat % 16)]
  else if c = '<' then ['\\', 'u', '0', '0', '3', 'c']
  else if c = '>' then ['\\', 'u', '0', '0', '3', 'e']
  else if c = '&' then ['\\', 'u', '0', '0', '2', '6']
  else if c.toNat = 0x2028 then ['\\', 'u', '2', '0', '2', '8']
  else if c.toNat = 0x2029 then ['\\', 'u', '2', '0', '2', '9']
  else [c]

/-- A JSON string literal. -/
def jsonStr (s : String) : String :=
  "\"" ++ String.mk (s.data.foldr (fun c acc => jsonEscapeChar c ++ acc) []) ++ "\""

/-- The two fields the embedded `Request` envelope contributes to a
marshalled body, in struct order. -/
def marshalRequestFields (r : Request) : String :=
  jsonStr "request" ++ ":" ++ jsonStr r.Request ++ "," ++
    jsonStr "nonce" ++ ":" ++ jsonStr r.Nonce

/-- `json.Marshal` of an `AccountBalancesRequest`. -/
def marshalAccountBalancesRequest (r : AccountBalancesRequest) : String :=
  "\x7b" ++ marshalRequestFields r.Request ++ "\x7d"

/-- `json.Marshal` of an `AccountCurrencyBalanceRequest`. -/
def marshalAccountCurrencyBalanceRequest (r : AccountCurrencyBalanceRequest) : String :=
  "\x7b" ++ marshalRequestFields r.Request ++ "," ++
    jsonStr "currency" ++ ":" ++ jsonStr r.Currency ++ "\x7d"

/-! ## Endpoint methods (request preparation and response handling)

Each endpoint method is split at the network boundary into the request it
prepares (URL, envelope stamping, marshalled body) and the handling of the
response it receives back.  `nowMilli` stands for
`time.Now().UnixMilli()` at the moment of the call. -/

/-- The URL `PostBalances` builds. -/
def PostBalancesURL (c : client) : String := c.url ++ "/account/balances"

/-- The request value `PostBalances` marshals: the caller's value,
untouched — no field is stamped on this path (`nowMilli` is deliberately
unused, mirroring that the source never reads the clock here). -/
def PostBalancesPrepared (request : AccountBalancesRequest) (nowMilli : Int) :
    AccountBalancesRequest :=
  request

/-- The body bytes `PostBalances` sends. -/
def PostBalancesBody (request : AccountBalancesRequest) (nowMilli : Int) : List Nat :=
  strBytes (marshalAccountBalancesRequest (PostBalancesPrepared request nowMilli))

/-- The URL `PostCurrencyBalance` builds. -/
def PostCurrencyBalanceURL (c : client) : String := c.url ++ "/account/balance"

/-- The request value `PostCurrencyBalance` marshals: before marshalling
it stamps `Nonce` with `strconv.FormatInt(time.Now().UnixMilli(), 10)` and
`Request` with the literal `"/api/v2/account/balance"`. -/
def PostCurrencyBalancePrepared (request : AccountCurrencyBalanceRequest)
    (nowMilli : Int) : AccountCurrencyBalanceRequest :=
  let request := { request with Request := { request.Request with Nonce := toString nowMilli } }
  { request with Request := { request.Request with Request := "/api/v2/account/balance" } }

/-- The body bytes `PostCurrencyBalance` sends. -/
def PostCurrencyBalanceBody (request : AccountCurrencyBalanceRequest)
    (nowMilli : Int) : List Nat :=
  strBytes (marshalAccountCurrencyBalanceRequest (PostCurrencyBalancePrepared request nowMilli))

/-- `PostBalances`, response side: read the full body, check the status
against 200, and either fail with the combined status-and-body error text
or decode.  `decode` stands for `json.Unmarshal` into
`AccountBalancesResp` (its own errors are propagated unchanged). -/
def PostBalancesHandle (decode : String → Except String AccountBalancesResp)
    (resp : response) : Except String AccountBalancesResp :=
  match checkHTTPStatus resp [200] with
  | some errText => Except.error (errText ++ ": " ++ resp.Body ++ "\n")
  | none => decode resp.Body

/-- `PostCurrencyBalance`, response side (same shape as
`PostBalancesHandle`). -/
def PostCurrencyBalanceHandle
    (decode : String → Except String AccountCurrencyBalanceResp)
    (resp : response) : Except String AccountCurrencyBalanceResp :=
  match checkHTTPStatus resp [200] with
  | some errText => Except.error (errText ++ ": " ++ resp.Body ++ "\n")
  | none => decode resp.Body

/-! ## Client construction and redirect behaviour -/

/-- `newClientWithURL`: installs a `CheckRedirect` callback returning
`http.ErrUseLastResponse`, wraps the credentials, and keeps the given REST
URL together with the fixed WebSocket URL.  (The Go function also returns
an always-nil error.) -/
def newClientWithURL (url apiKey apiSecret : String) : client :=
  { checkRedirect := RedirectPolicy.useLastResponse,
    auth := some { APIKey := apiKey, APISecret := apiSecret },
    url := url,
    wsUrl := websocketApi }

/-- `NewClient`: `newClientWithURL` at the production base URL. -/
def NewClient (apiKey apiSecret : String) : client :=
  newClientWithURL baseAPI apiKey apiSecret

/-- A server response as seen at the transport: status code, the
`Location` header target, remaining headers, body text. -/
structure srvResponse where
  StatusCode : Int
  Location : String
  Header : List (String × String)
  BodyText : String
deriving Repr, DecidableEq

/-- Status codes for which Go's `net/http` client would follow a
redirect. -/
def redirectFollowCodes : List Int := [301, 302, 303, 307, 308]

/-- Modelled from the documented redirect handling of Go's
`net/http.Client.Do` (the standard library, outside this repository): a
redirect response consults `CheckRedirect`; `http.ErrUseLastResponse`
makes `Do` return the most recent response with its body unread, while the
default policy (nil callback) follows the `Location` chain, up to 10 hops.
The remote server is a function from URL to response; `fuel` bounds the
chain. -/
def httpDo (policy : RedirectPolicy) (server : String → srvResponse) :
    Nat → String → srvResponse
  | 0, url => server url
  | fuel + 1, url =>
    let r := server url
    if r.StatusCode ∈ redirectFollowCodes then
      match policy with
      | RedirectPolicy.useLastResponse => r
      | RedirectPolicy.followDefault => httpDo policy server fuel r.Location
    else r

/-- `c.http.Do(request)` as issued from `sendRequest`: the client's
redirect policy applied with Go's 10-hop budget. -/
def clientDo (c : client) (server : String → srvResponse) (url : String) : srvResponse :=
  httpDo c.checkRedirect server 10 url

/-! ## Lemmas about the map and header operations -/

theorem mapGet_set_self (m : HMap) (k v : String) :
    mapGet (mapSet m k v) k = v := by
  induction m with
  | nil => simp [mapSet, mapGet]
  | cons hd t ih =>
    by_cases h : hd.1 = k <;> simp [mapSet, mapGet, h, ih]

theorem mapGet_set_other (m : HMap) (k k' v : String) (h : k ≠ k') :
    mapGet (mapSet m k v) k' = mapGet m k' := by
  induction m with
  | nil => simp [mapSet, mapGet, h]
  | cons hd t ih =>
    by_cases hk : hd.1 = k <;> simp [mapSet, mapGet, hk, ih]
    · simp [h, mapGet]

theorem mapKeys_set (m : HMap) (k v : String) :
    mapKeys (mapSet m k v) = if k ∈ mapKeys m then mapKeys m else mapKeys m ++ [k] := by
  induction m with
  | nil => simp [mapSet, mapKeys]
  | cons hd t ih =>
    by_cases hk : hd.1 = k
    · simp [mapSet, mapKeys, hk]
    · have hne : ¬ k = hd.1 := fun h => hk h.symm
      simp only [mapSet, if_neg hk, mapKeys, List.map_cons] at ih ⊢
      rw [ih]
      by_cases hm : k ∈ List.map Prod.fst t
      · simp [List.mem_cons, hne, hm]
      · simp [List.mem_cons, hne, hm]

theorem nodupKeys_set (m : HMap) (k v : String) (h : nodupKeys m) :
    nodupKeys (mapSet m k v) := by
  unfold nodupKeys
  rw [mapKeys_set]
  by_cases hm : k ∈ mapKeys m
  · simpa [hm] using h
  · simp only [if_neg hm]
    simpa [List.nodup_append] using ⟨h, hm⟩

/-! ## Validation of the primitives against published test vectors -/

/-- FIPS 180-4 test vector: SHA-512 of "abc". -/
theorem sha512_abc_vector :
    hexEncode (sha512 (strBytes "abc")) =
    "ddaf35a193617abacc417349ae20413112e6fa4e89a97ea20a9eeee64b55d39a2192992a274fc1a836ba3c23a3feebbd454d4423643ce80e2a9ac94fa54ca49f" := by
  rfl

/-- RFC 4231 test case 1: HMAC-SHA-512 with a 20-byte `0x0b` key over
"Hi There". -/
theorem hmacSHA512_rfc4231_tc1 :
    hexEncode (hmacSHA512 (List.replicate 20 0x0b) (strBytes "Hi There")) =
    "87aa7cdea5ef619d4ff0b4241a1d6cb02379f4e2ce4ec2787ad0b30545e17cdedaa833b7d6b8a702038b274eaea3f4e4be9d914eeb61f1702e696c203a126854" := by
  rfl

/-- RFC 4648 test vectors for standard base64. -/
theorem base64Encode_rfc4648_vectors :
    base64Encode (strBytes "foobar") = "Zm9vYmFy" ∧
    base64Encode (strBytes "fooba") = "Zm9vYmE=" ∧
    base64Encode (strBytes "foob") = "Zm9vYg==" ∧
    base64Encode [] = "" := by
  refine ⟨rfl, rfl, rfl, rfl⟩

theorem mem_keys_of_mapGet_ne (m : HMap) (k : String) (h : mapGet m k ≠ "") :
    k ∈ mapKeys m := by
  induction m with
  | nil => exact absurd rfl h
  | cons hd t ih =>
    by_cases hk : hd.1 = k
    · show k ∈ hd.1 :: mapKeys t
      exact hk ▸ List.mem_cons_self _ _
    · simp only [mapGet, if_neg hk] at h
      show k ∈ hd.1 :: mapKeys t
      exact List.mem_cons_of_mem _ (ih h)

theorem mapGet_mem (m : HMap) (k : String) (h : k ∈ mapKeys m) :
    (k, mapGet m k) ∈ m := by
  induction m with
  | nil => simp [mapKeys] at h
  | cons hd t ih =>
    by_cases hk : hd.1 = k
    · have hg : mapGet (hd :: t) k = hd.2 := by simp [mapGet, hk]
      rw [hg, ← hk]
      exact List.mem_cons_self hd t
    · have h' : k ∈ hd.1 :: mapKeys t := h
      have hk' : k ∈ mapKeys t := by
        rcases List.mem_cons.mp h' with h1 | h1
        · exact absurd h1.symm hk
        · exact h1
      have hg : mapGet (hd :: t) k = mapGet t k := by simp [mapGet, hk]
      rw [hg]
      exact List.mem_cons_of_mem _ (ih hk')

theorem mem_keys_mapSet_self (m : HMap) (k v : String) :
    k ∈ mapKeys (mapSet m k v) := by
  rw [mapKeys_set]
  split
  · assumption
  · simp

theorem mem_keys_mapSet_mono (m : HMap) (k v k' : String) (h : k' ∈ mapKeys m) :
    k' ∈ mapKeys (mapSet m k v) := by
  rw [mapKeys_set]
  split <;> simp [h]

theorem count_mapSet_other (m : HMap) (k v k' v' : String) (h : k' ≠ k) :
    List.count (k', v') (mapSet m k v) = List.count (k', v') m := by
  have h1 : ¬ ((k', v') = (k, v)) := fun he => h (congrArg Prod.fst he)
  induction m with
  | nil =>
    simp [mapSet, List.count_cons, h1]
  | cons hd t ih =>
    by_cases hk : hd.1 = k
    · have h2 : ¬ ((k', v') = hd) := fun he => h ((congrArg Prod.fst he).trans hk)
      have h3 : ¬ (k = k' ∧ v = v') := fun hp => h hp.1.symm
      have h4 : ¬ (hd = (k', v')) := fun he => h2 he.symm
      simp only [mapSet, if_pos hk]
      rw [List.count_cons, List.count_cons]
      simp [h1, h2, h3, h4]
    · simp only [mapSet, if_neg hk]
      rw [List.count_cons, List.count_cons, ih]

theorem mapGet_mergeStep_other (acc : HMap) (kv : String × String) (k : String)
    (h : k ≠ kv.1) : mapGet (mergeStep acc kv) k = mapGet acc k := by
  unfold mergeStep
  split
  · exact mapGet_set_other acc kv.1 k kv.2 (fun he => h he.symm)
  · rfl

theorem mem_keys_mergeStep (acc : HMap) (kv : String × String) :
    kv.1 ∈ mapKeys (mergeStep acc kv) := by
  unfold mergeStep
  split
  · exact mem_keys_mapSet_self acc kv.1 kv.2
  · next h => exact mem_keys_of_mapGet_ne acc kv.1 h

theorem mem_keys_mergeStep_mono (acc : HMap) (kv : String × String) (k : String)
    (h : k ∈ mapKeys acc) : k ∈ mapKeys (mergeStep acc kv) := by
  unfold mergeStep
  split
  · exact mem_keys_mapSet_mono acc kv.1 kv.2 k h
  · exact h

theorem nodupKeys_mergeStep (acc : HMap) (kv : String × String)
    (h : nodupKeys acc) : nodupKeys (mergeStep acc kv) := by
  unfold mergeStep
  split
  · exact nodupKeys_set acc kv.1 kv.2 h
  · exact h

theorem count_mergeStep_other (acc : HMap) (kv : String × String) (k v : String)
    (h : k ≠ kv.1) : List.count (k, v) (mergeStep acc kv) = List.count (k, v) acc := by
  unfold mergeStep
  split
  · exact count_mapSet_other acc kv.1 kv.2 k v h
  · rfl

theorem mergeList_cons (f : HMap) (hd : String × String) (t : HMap) :
    mergeList f (hd :: t) = mergeList (mergeStep f hd) t := rfl

theorem mapGet_mergeList_not_in_second (s : HMap) (f : HMap) (k : String)
    (h : k ∉ mapKeys s) : mapGet (mergeList f s) k = mapGet f k := by
  induction s generalizing f with
  | nil => rfl
  | cons hd t ih =>
    have hk : k ≠ hd.1 := fun he => h (by simp [mapKeys, he])
    have ht : k ∉ mapKeys t := fun hm => h (by simp [mapKeys] at hm ⊢; exact Or.inr hm)
    rw [mergeList_cons, ih _ ht, mapGet_mergeStep_other _ _ _ hk]

theorem mapGet_mergeList_of_ne_empty (s : HMap) (f : HMap) (k : String)
    (h : mapGet f k ≠ "") : mapGet (mergeList f s) k = mapGet f k := by
  induction s generalizing f with
  | nil => rfl
  | cons hd t ih =>
    rw [mergeList_cons]
    by_cases hk : k = hd.1
    · have hstep : mergeStep f hd = f := by
        unfold mergeStep
        rw [if_neg (hk ▸ h)]
      rw [hstep, ih _ h]
    · rw [ih, mapGet_mergeStep_other _ _ _ hk]
      rw [mapGet_mergeStep_other _ _ _ hk]
      exact h

theorem mem_keys_mergeList_mono (s : HMap) (f : HMap) (k : String)
    (h : k ∈ mapKeys f) : k ∈ mapKeys (mergeList f s) := by
  induction s generalizing f with
  | nil => exact h
  | cons hd t ih =>
    rw [mergeList_cons]
    exact ih _ (mem_keys_mergeStep_mono f hd k h)

theorem nodupKeys_mergeList (s : HMap) (f : HMap) (h : nodupKeys f) :
    nodupKeys (mergeList f s) := by
  induction s generalizing f with
  | nil => exact h
  | cons hd t ih =>
    rw [mergeList_cons]
    exact ih _ (nodupKeys_mergeStep f hd h)

theorem count_mergeList_not_in_second (s : HMap) (f : HMap) (k v : String)
    (h : k ∉ mapKeys s) : List.count (k, v) (mergeList f s) = List.count (k, v) f := by
  induction s generalizing f with
  | nil => rfl
  | cons hd t ih =>
    have hk : k ≠ hd.1 := fun he => h (by simp [mapKeys, he])
    have ht : k ∉ mapKeys t := fun hm => h (by simp [mapKeys] at hm ⊢; exact Or.inr hm)
    rw [mergeList_cons, ih _ ht, count_mergeStep_other _ _ _ _ hk]

theorem mapKeys_mergeList_mem (s : HMap) (f : HMap) (k : String)
    (h : k ∈ mapKeys (mergeList f s)) : k ∈ mapKeys f ∨ k ∈ mapKeys s := by
  induction s generalizing f with
  | nil => exact Or.inl h
  | cons hd t ih =>
    rw [mergeList_cons] at h
    rcases ih _ h with h1 | h1
    · unfold mergeStep at h1
      split at h1
      · rw [mapKeys_set] at h1
        split at h1
        · exact Or.inl h1
        · rcases List.mem_append.mp h1 with h2 | h2
          · exact Or.inl h2
          · simp at h2
            exact Or.inr (by simp [mapKeys, h2])
      · exact Or.inl h1
    · exact Or.inr (by simp [mapKeys] at h1 ⊢; exact Or.inr h1)

theorem count_pair_eq (m : HMap) (h : nodupKeys m) (k v : String) :
    List.count (k, v) m = if k ∈ mapKeys m ∧ mapGet m k = v then 1 else 0 := by
  induction m with
  | nil => simp [mapKeys, mapGet]
  | cons hd t ih =>
    have hnd : nodupKeys t := (List.nodup_cons.mp h).2
    have hhd : hd.1 ∉ mapKeys t := (List.nodup_cons.mp h).1
    rw [List.count_cons, ih hnd]
    by_cases hk : hd.1 = k
    · have htk : k ∉ mapKeys t := hk ▸ hhd
      have hmem : k ∈ mapKeys (hd :: t) := by
        show k ∈ hd.1 :: mapKeys t
        exact hk ▸ List.mem_cons_self _ _
      have hget : mapGet (hd :: t) k = hd.2 := by simp [mapGet, hk]
      by_cases hv : hd.2 = v
      · have heq : hd = (k, v) := by
          cases hd
          simp_all
        have hm2 : k ∈ mapKeys ((k, v) :: t) := by
          show k ∈ k :: mapKeys t
          exact List.mem_cons_self _ _
        have hg2 : mapGet ((k, v) :: t) k = v := by simp [mapGet]
        simp [htk, hget, hv, heq, hm2, hg2]
      · have : ¬ (hd = (k, v)) := fun he => hv (congrArg Prod.snd he)
        simp [htk, hmem, hget, hv, this]
    · have hne : ¬ (hd = (k, v)) := fun he => hk (congrArg Prod.fst he)
      have hget : mapGet (hd :: t) k = mapGet t k := by simp [mapGet, hk]
      have hmem : (k ∈ mapKeys (hd :: t)) ↔ (k ∈ mapKeys t) := by
        show (k ∈ hd.1 :: mapKeys t) ↔ _
        constructor
        · intro hm
          rcases List.mem_cons.mp hm with h1 | h1
          · exact absurd h1.symm hk
          · exact h1
        · exact List.mem_cons_of_mem _
      rw [hget]
      by_cases hcond : k ∈ mapKeys t ∧ mapGet t k = v
      · simp [hcond, hmem.mpr hcond.1, hne]
      · have : ¬ (k ∈ mapKeys (hd :: t) ∧ mapGet t k = v) :=
          fun hc => hcond ⟨hmem.mp hc.1, hc.2⟩
        simp [hcond, hne, this]

theorem foldl_snoc_eq (l acc : List α) :
    l.foldl (fun acc kv => acc ++ [kv]) acc = acc ++ l := by
  induction l generalizing acc with
  | nil => simp
  | cons hd t ih => rw [List.foldl_cons, ih]; simp

theorem sendRequest_some (c : client) (m : HMap) :
    sendRequest c (some m) =
      ⟨m ++ mergeList m (thisHeaders c), mergeList m (thisHeaders c)⟩ := by
  unfold sendRequest mergeHeaders
  simp [foldl_snoc_eq]

theorem sendRequest_none (c : client) :
    sendRequest c none = ⟨thisHeaders c, thisHeaders c⟩ := by
  unfold sendRequest mergeHeaders
  simp [foldl_snoc_eq]

theorem thisHeaders_auth (c : client) (a : auth) (hc : c.auth = some a) :
    thisHeaders c = [("Content-type", "application/json"), (HeaderXTxcAPIKey, a.APIKey)] := by
  unfold thisHeaders
  rw [hc]
  rfl

theorem thisHeaders_noauth (c : client) (hc : c.auth = none) :
    thisHeaders c = [("Content-type", "application/json")] := by
  unfold thisHeaders
  rw [hc]
  rfl

theorem mapKeys_thisHeaders_auth (c : client) (a : auth) (hc : c.auth = some a) :
    mapKeys (thisHeaders c) = ["Content-type", HeaderXTxcAPIKey] := by
  rw [thisHeaders_auth c a hc]
  rfl

/-- Lookup of `Content-type` in a map merged with `thisHeaders`: the
computed value fills the slot only when the first map holds `""`. -/
theorem mapGet_mergeList_thisHeaders_ct (c : client) (f : HMap) :
    mapGet (mergeList f (thisHeaders c)) "Content-type" =
      if mapGet f "Content-type" = "" then "application/json"
      else mapGet f "Content-type" := by
  by_cases hf : mapGet f "Content-type" = ""
  · have hstep : mapGet (mergeStep f ("Content-type", "application/json")) "Content-type"
        = "application/json" := by
      unfold mergeStep
      rw [if_pos hf]
      exact mapGet_set_self f _ _
    cases hauth : c.auth with
    | none =>
      rw [thisHeaders_noauth c hauth, if_pos hf]
      exact hstep
    | some a =>
      rw [thisHeaders_auth c a hauth, if_pos hf]
      rw [mergeList_cons, mergeList_cons]
      show mapGet (mergeStep (mergeStep f _) (HeaderXTxcAPIKey, a.APIKey)) "Content-type" = _
      rw [mapGet_mergeStep_other _ _ _
        (show ("Content-type" : String) ≠ HeaderXTxcAPIKey by decide)]
      exact hstep
  · rw [if_neg hf]
    exact mapGet_mergeList_of_ne_empty _ f _ hf

/-- Lookup of the API-key header after merging with `thisHeaders` of an
authenticated client. -/
theorem mapGet_mergeList_thisHeaders_ak (c : client) (a : auth) (hc : c.auth = some a)
    (f : HMap) :
    mapGet (mergeList f (thisHeaders c)) HeaderXTxcAPIKey =
      if mapGet f HeaderXTxcAPIKey = "" then a.APIKey
      else mapGet f HeaderXTxcAPIKey := by
  rw [thisHeaders_auth c a hc, mergeList_cons, mergeList_cons]
  show mapGet (mergeStep (mergeStep f ("Content-type", "application/json"))
    (HeaderXTxcAPIKey, a.APIKey)) HeaderXTxcAPIKey = _
  set g := mergeStep f ("Content-type", "application/json") with hg
  have hct : mapGet g HeaderXTxcAPIKey = mapGet f HeaderXTxcAPIKey :=
    mapGet_mergeStep_other _ _ _
      (show HeaderXTxcAPIKey ≠ "Content-type" by decide)
  have hstep : mergeStep g (HeaderXTxcAPIKey, a.APIKey)
      = if mapGet g HeaderXTxcAPIKey = "" then mapSet g HeaderXTxcAPIKey a.APIKey
        else g := rfl
  rw [hstep, hct]
  by_cases hf : mapGet f HeaderXTxcAPIKey = ""
  · rw [if_pos hf, if_pos hf]
    exact mapGet_set_self g _ _
  · rw [if_neg hf, if_neg hf]
    exact hct

/-- The API-key header key is always present after merging with
`thisHeaders` of an authenticated client. -/
theorem apikey_mem_mergeList_thisHeaders (c : client) (a : auth)
    (hc : c.auth = some a) (f : HMap) :
    HeaderXTxcAPIKey ∈ mapKeys (mergeList f (thisHeaders c)) := by
  rw [thisHeaders_auth c a hc, mergeList_cons, mergeList_cons]
  show HeaderXTxcAPIKey ∈ mapKeys (mergeStep _ (HeaderXTxcAPIKey, a.APIKey))
  exact mem_keys_mergeStep _ _

/-- The `Content-type` key is always present after merging with
`thisHeaders`. -/
theorem ct_mem_mergeList_thisHeaders (c : client) (f : HMap) :
    "Content-type" ∈ mapKeys (mergeList f (thisHeaders c)) := by
  cases hauth : c.auth with
  | none =>
    rw [thisHeaders_noauth c hauth, mergeList_cons]
    exact mem_keys_mergeStep _ _
  | some a =>
    rw [thisHeaders_auth c a hauth, mergeList_cons, mergeList_cons]
    show "Content-type" ∈ mapKeys (mergeStep (mergeStep f ("Content-type", "application/json")) _)
    exact mem_keys_mergeStep_mono _ _ _ (mem_keys_mergeStep _ _)

theorem checkHTTPStatus_any_iff (resp : response) (expected : List Int) :
    (expected.any (fun e => resp.StatusCode == e) = true) ↔
      resp.StatusCode ∈ expected := by
  rw [List.any_eq_true]
  constructor
  · rintro ⟨x, hx, he⟩
    have : resp.StatusCode = x := by simpa using he
    rw [this]
    exact hx
  · intro h
    exact ⟨resp.StatusCode, h, beq_self_eq_true _⟩

theorem checkHTTPStatus_none_iff (resp : response) (expected : List Int) :
    checkHTTPStatus resp expected = none ↔ resp.StatusCode ∈ expected := by
  unfold checkHTTPStatus
  by_cases hc : expected.any (fun e => resp.StatusCode == e) = true
  · simp [hc, (checkHTTPStatus_any_iff resp expected).mp hc]
  · simp only [hc]
    simp
    exact fun hm => hc ((checkHTTPStatus_any_iff resp expected).mpr hm)

theorem checkHTTPStatus_err (resp : response) (expected : List Int)
    (h : resp.StatusCode ∉ expected) :
    checkHTTPStatus resp expected = some (statusErrText expected resp.StatusCode) := by
  unfold checkHTTPStatus
  rw [if_neg]
  exact fun hc => h ((checkHTTPStatus_any_iff resp expected).mp hc)

/-! ## Claim theorems -/

/-- Claim C2: only `PostCurrencyBalance` refreshes the envelope immediately
before serialization — it stamps `Nonce` with the Unix-millisecond time as
a decimal string and `Request` with the literal `"/api/v2/account/balance"`
(leaving `Currency` alone) — while `PostBalances` marshals the caller's
request unmodified, so the body it sends is the same whatever the current
time, and the caller's nonce is reused unchanged across repeated calls. -/
theorem nonce_stamping_spec :
    ∀ (reqCB : AccountCurrencyBalanceRequest) (reqB : AccountBalancesRequest)
      (now now1 now2 : Int),
      (PostCurrencyBalancePrepared reqCB now).Request.Nonce = toString now ∧
      (PostCurrencyBalancePrepared reqCB now).Request.Request =
        "/api/v2/account/balance" ∧
      (PostCurrencyBalancePrepared reqCB now).Currency = reqCB.Currency ∧
      PostCurrencyBalanceBody reqCB now =
        strBytes (marshalAccountCurrencyBalanceRequest
          (PostCurrencyBalancePrepared reqCB now)) ∧
      PostBalancesPrepared reqB now = reqB ∧
      PostBalancesBody reqB now = strBytes (marshalAccountBalancesRequest reqB) ∧
      PostBalancesBody reqB now1 = PostBalancesBody reqB now2 := by
  intro reqCB reqB now now1 now2
  exact ⟨rfl, rfl, rfl, rfl, rfl, rfl, rfl⟩

/-- Claim C3: `checkHTTPStatus` succeeds (returns nil) exactly when the status
code is among the expected codes; otherwise its error carries the full
expected list and the actual code; in particular, against the single code
200 it succeeds iff the status code is 200. -/
theorem checkHTTPStatus_spec :
    ∀ (resp : response) (expected : List Int),
      (checkHTTPStatus resp expected = none ↔ resp.StatusCode ∈ expected) ∧
      (resp.StatusCode ∉ expected →
        checkHTTPStatus resp expected =
          some (statusErrText expected resp.StatusCode)) ∧
      (checkHTTPStatus resp [200] = none ↔ resp.StatusCode = 200) := by
  intro resp expected
  refine ⟨checkHTTPStatus_none_iff resp expected,
    checkHTTPStatus_err resp expected, ?_⟩
  rw [checkHTTPStatus_none_iff resp [200]]
  simp

/-- Witness for C3 at status codes 404 and 200 against `[200]`. -/
theorem checkHTTPStatus_spec_witness :
    checkHTTPStatus ⟨[], "", 404, ""⟩ [200] =
      some "http response status != [200], got 404" ∧
    checkHTTPStatus ⟨[], "", 200, ""⟩ [200] = none := by
  constructor
  · have h := (checkHTTPStatus_spec ⟨[], "", 404, ""⟩ [200]).2.1 (by decide)
    rw [h]
    rfl
  · exact (checkHTTPStatus_spec ⟨[], "", 200, ""⟩ [200]).2.2.mpr rfl

/-- Claim C7: clients built by `NewClient`/`newClientWithURL` carry the
`ErrUseLastResponse` redirect policy, so for a 3xx response the transport
returns the server's first response unchanged instead of re-issuing the
request to the Location target. -/
theorem redirect_not_followed_spec :
    ∀ (url apiKey apiSecret target : String) (server : String → srvResponse),
      300 ≤ (server target).StatusCode → (server target).StatusCode < 400 →
      (newClientWithURL url apiKey apiSecret).checkRedirect =
        RedirectPolicy.useLastResponse ∧
      (NewClient apiKey apiSecret).checkRedirect =
        RedirectPolicy.useLastResponse ∧
      clientDo (newClientWithURL url apiKey apiSecret) server target =
        server target ∧
      clientDo (NewClient apiKey apiSecret) server target = server target := by
  intro url apiKey apiSecret target server _ _
  have hdo : ∀ (srv : String → srvResponse) (n : Nat) (u : String),
      httpDo RedirectPolicy.useLastResponse srv (n + 1) u = srv u := by
    intro srv n u
    unfold httpDo
    split
    · by_cases hr : (srv u).StatusCode ∈ redirectFollowCodes <;> simp [hr]
    · rename_i heq
      simp at heq
  exact ⟨rfl, rfl, hdo server 9 target, hdo server 9 target⟩

/-- Witness for C7: a server answering 302 is surfaced as-is. -/
theorem redirect_not_followed_spec_witness :
    (300 : Int) ≤ 302 ∧ (302 : Int) < 400 ∧
    clientDo (newClientWithURL "https://x" "K" "S")
      (fun _ => ⟨302, "https://elsewhere", [], ""⟩) "https://x" =
      ⟨302, "https://elsewhere", [], ""⟩ := by
  have h := redirect_not_followed_spec "https://x" "K" "S" "https://x"
    (fun _ => ⟨302, "https://elsewhere", [], ""⟩) (by decide) (by decide)
  exact ⟨by decide, by decide, h.2.2.1⟩

/-- Claim C8: the unsubscribe builder appends the literal `.unsubscribe` suffix
to the channel, with empty params, and the ping builder produces
`server.ping` with empty params; both carry the Unix-second timestamp as
`Id` (the timestamp is the explicit `nowSec` argument here). -/
theorem ws_builders_spec :
    ∀ (s : String) (nowSec : Int),
      newUnsubscribeRequest nowSec s = ⟨s ++ ".unsubscribe", [], nowSec⟩ ∧
      newPingRequest nowSec = ⟨"server.ping", [], nowSec⟩ := by
  intro s nowSec
  exact ⟨rfl, rfl⟩

/-- Structural decomposition of an authenticated `sendPost`: the map
handed to `sendRequest` is the caller's map with the payload and signature
entries stored, and the outgoing header multimap is that map followed by
the merge result. -/
theorem sendPost_auth_m2 (c : client) (a : auth) (hc : c.auth = some a)
    (addl : Option HMap) (body : List Nat) :
    ∃ m2 : HMap,
      m2 = mapSet (mapSet (addl.getD []) HeaderXTxcPayload (base64Encode body))
        HeaderXTxcSignature
        (hexEncode (hmacSHA512 (strBytes a.APISecret)
          (strBytes (base64Encode body)))) ∧
      (sendPost c addl body).merged = mergeList m2 (thisHeaders c) ∧
      (sendPost c addl body).reqHeaders = m2 ++ mergeList m2 (thisHeaders c) ∧
      (sendPost c addl body).addlAfter =
        (match addl with
          | none => none
          | some _ => some (mergeList m2 (thisHeaders c))) := by
  refine ⟨_, rfl, ?_, ?_, ?_⟩ <;>
    simp only [sendPost, hc, mapGet_set_self, sendRequest_some]

/-- Lookups and key membership in the map `sendPost` hands to
`sendRequest`. -/
theorem sendPost_m2_facts (a : auth) (addl : Option HMap) (body : List Nat)
    (m2 : HMap)
    (hm2 : m2 = mapSet (mapSet (addl.getD []) HeaderXTxcPayload (base64Encode body))
      HeaderXTxcSignature
      (hexEncode (hmacSHA512 (strBytes a.APISecret)
        (strBytes (base64Encode body))))) :
    mapGet m2 HeaderXTxcPayload = base64Encode body ∧
    mapGet m2 HeaderXTxcSignature =
      hexEncode (hmacSHA512 (strBytes a.APISecret)
        (strBytes (base64Encode body))) ∧
    HeaderXTxcPayload ∈ mapKeys m2 ∧
    HeaderXTxcSignature ∈ mapKeys m2 := by
  subst hm2
  refine ⟨?_, mapGet_set_self _ _ _, ?_, mem_keys_mapSet_self _ _ _⟩
  · rw [mapGet_set_other _ _ _ _
      (show HeaderXTxcSignature ≠ HeaderXTxcPayload by decide)]
    exact mapGet_set_self _ _ _
  · exact mem_keys_mapSet_mono _ _ _ _ (mem_keys_mapSet_self _ _ _)

/-- Claim C1: on an authenticated `sendPost`, the `X-TXC-PAYLOAD` header is the
standard base64 of the exact body bytes and `X-TXC-SIGNATURE` is the
lowercase-hex HMAC-SHA512, keyed by the API secret, of the bytes of that
base64 string (not of the raw body bytes): both as the final value in the
merged header map and as entries of the outgoing header multimap. -/
theorem sendPost_signing_spec :
    ∀ (c : client) (a : auth) (addl : Option HMap) (body : List Nat),
      c.auth = some a →
      mapGet (sendPost c addl body).merged HeaderXTxcPayload =
        base64Encode body ∧
      mapGet (sendPost c addl body).merged HeaderXTxcSignature =
        hexEncode (hmacSHA512 (strBytes a.APISecret)
          (strBytes (base64Encode body))) ∧
      (HeaderXTxcPayload, base64Encode body) ∈ (sendPost c addl body).reqHeaders ∧
      (HeaderXTxcSignature,
        hexEncode (hmacSHA512 (strBytes a.APISecret)
          (strBytes (base64Encode body)))) ∈ (sendPost c addl body).reqHeaders := by
  intro c a addl body hc
  obtain ⟨m2, hm2, hmg, hreq, -⟩ := sendPost_auth_m2 c a hc addl body
  obtain ⟨hg_payl, hg_sig, hk_payl, hk_sig⟩ := sendPost_m2_facts a addl body m2 hm2
  have hpayl_notin : HeaderXTxcPayload ∉ mapKeys (thisHeaders c) := by
    rw [mapKeys_thisHeaders_auth c a hc]
    decide
  have hsig_notin : HeaderXTxcSignature ∉ mapKeys (thisHeaders c) := by
    rw [mapKeys_thisHeaders_auth c a hc]
    decide
  have hmg_payl : mapGet (mergeList m2 (thisHeaders c)) HeaderXTxcPayload =
      base64Encode body := by
    rw [mapGet_mergeList_not_in_second _ _ _ hpayl_notin, hg_payl]
  have hmg_sig : mapGet (mergeList m2 (thisHeaders c)) HeaderXTxcSignature =
      hexEncode (hmacSHA512 (strBytes a.APISecret) (strBytes (base64Encode body))) := by
    rw [mapGet_mergeList_not_in_second _ _ _ hsig_notin, hg_sig]
  refine ⟨by rw [hmg, hmg_payl], by rw [hmg, hmg_sig], ?_, ?_⟩
  · rw [hreq]
    refine List.mem_append_right _ ?_
    have hmem := mapGet_mem (mergeList m2 (thisHeaders c)) HeaderXTxcPayload
      (mem_keys_mergeList_mono _ _ _ hk_payl)
    rw [hmg_payl] at hmem
    exact hmem
  · rw [hreq]
    refine List.mem_append_right _ ?_
    have hmem := mapGet_mem (mergeList m2 (thisHeaders c)) HeaderXTxcSignature
      (mem_keys_mergeList_mono _ _ _ hk_sig)
    rw [hmg_sig] at hmem
    exact hmem

/-- Witness for C1 at a concrete client and empty body. -/
theorem sendPost_signing_spec_witness :
    (newClientWithURL "u" "K" "S").auth = some ⟨"K", "S"⟩ ∧
    (mapGet (sendPost (newClientWithURL "u" "K" "S") none []).merged
        HeaderXTxcPayload = base64Encode [] ∧
      mapGet (sendPost (newClientWithURL "u" "K" "S") none []).merged
        HeaderXTxcSignature =
        hexEncode (hmacSHA512 (strBytes "S") (strBytes (base64Encode []))) ∧
      (HeaderXTxcPayload, base64Encode []) ∈
        (sendPost (newClientWithURL "u" "K" "S") none []).reqHeaders ∧
      (HeaderXTxcSignature,
        hexEncode (hmacSHA512 (strBytes "S") (strBytes (base64Encode [])))) ∈
        (sendPost (newClientWithURL "u" "K" "S") none []).reqHeaders) :=
  ⟨rfl, sendPost_signing_spec (newClientWithURL "u" "K" "S") ⟨"K", "S"⟩ none [] rfl⟩

/-- Merging with `thisHeaders` never touches the payload and signature
entries (their keys are not among the computed headers). -/
theorem mergeList_thisHeaders_payl_sig (c : client) (a : auth)
    (hc : c.auth = some a) (m2 : HMap) :
    mapGet (mergeList m2 (thisHeaders c)) HeaderXTxcPayload =
      mapGet m2 HeaderXTxcPayload ∧
    mapGet (mergeList m2 (thisHeaders c)) HeaderXTxcSignature =
      mapGet m2 HeaderXTxcSignature := by
  have h1 : HeaderXTxcPayload ∉ mapKeys (thisHeaders c) := by
    rw [mapKeys_thisHeaders_auth c a hc]
    decide
  have h2 : HeaderXTxcSignature ∉ mapKeys (thisHeaders c) := by
    rw [mapKeys_thisHeaders_auth c a hc]
    decide
  exact ⟨mapGet_mergeList_not_in_second _ _ _ h1,
    mapGet_mergeList_not_in_second _ _ _ h2⟩

/-- Claim C9: each key of the `additionalHeaders` map passed to `sendRequest`
occurs exactly twice in the outgoing header multimap (once added by the
initial loop and once when the merged map is added), and consequently an
authenticated `sendPost` emits exactly two copies of the
`X-TXC-PAYLOAD`/value and `X-TXC-SIGNATURE`/value pairs. -/
theorem headers_added_twice_spec :
    ∀ (c : client) (m : HMap) (k : String) (a : auth) (addl : Option HMap)
      (body : List Nat),
      nodupKeys m →
      nodupKeys (addl.getD []) →
      (k ∈ mapKeys m → countKey (sendRequest c (some m)).reqHeaders k = 2) ∧
      (c.auth = some a →
        List.count (HeaderXTxcPayload, base64Encode body)
          (sendPost c addl body).reqHeaders = 2 ∧
        List.count (HeaderXTxcSignature,
            hexEncode (hmacSHA512 (strBytes a.APISecret)
              (strBytes (base64Encode body))))
          (sendPost c addl body).reqHeaders = 2) := by
  intro c m k a addl body hm haddl
  constructor
  · intro hk
    rw [sendRequest_some]
    show countKey (m ++ mergeList m (thisHeaders c)) k = 2
    unfold countKey
    rw [List.map_append, List.count_append]
    have c1 : (List.map Prod.fst m).count k = 1 := List.count_eq_one_of_mem hm hk
    have c2 : (List.map Prod.fst (mergeList m (thisHeaders c))).count k = 1 :=
      List.count_eq_one_of_mem (nodupKeys_mergeList _ _ hm)
        (mem_keys_mergeList_mono _ _ _ hk)
    rw [c1, c2]
  · intro hc
    obtain ⟨m2, hm2, hmg, hreq, -⟩ := sendPost_auth_m2 c a hc addl body
    obtain ⟨hg_payl, hg_sig, hk_payl, hk_sig⟩ := sendPost_m2_facts a addl body m2 hm2
    have hnd2 : nodupKeys m2 := by
      rw [hm2]
      exact nodupKeys_set _ _ _ (nodupKeys_set _ _ _ haddl)
    have hndm : nodupKeys (mergeList m2 (thisHeaders c)) := nodupKeys_mergeList _ _ hnd2
    have hpayl_notin : HeaderXTxcPayload ∉ mapKeys (thisHeaders c) := by
      rw [mapKeys_thisHeaders_auth c a hc]
      decide
    have hsig_notin : HeaderXTxcSignature ∉ mapKeys (thisHeaders c) := by
      rw [mapKeys_thisHeaders_auth c a hc]
      decide
    constructor
    · have c1 : List.count (HeaderXTxcPayload, base64Encode body) m2 = 1 := by
        rw [count_pair_eq m2 hnd2]
        simp [hk_payl, hg_payl]
      have c2 : List.count (HeaderXTxcPayload, base64Encode body)
          (mergeList m2 (thisHeaders c)) = 1 := by
        rw [count_mergeList_not_in_second _ _ _ _ hpayl_notin, c1]
      rw [hreq, List.count_append, c1, c2]
    · have c1 : List.count (HeaderXTxcSignature,
          hexEncode (hmacSHA512 (strBytes a.APISecret)
            (strBytes (base64Encode body)))) m2 = 1 := by
        rw [count_pair_eq m2 hnd2]
        simp [hk_sig, hg_sig]
      have c2 : List.count (HeaderXTxcSignature,
          hexEncode (hmacSHA512 (strBytes a.APISecret)
            (strBytes (base64Encode body))))
          (mergeList m2 (thisHeaders c)) = 1 := by
        rw [count_mergeList_not_in_second _ _ _ _ hsig_notin, c1]
      rw [hreq, List.count_append, c1, c2]

/-- Witness for C9 at a concrete client, map and body. -/
theorem headers_added_twice_spec_witness :
    nodupKeys [("A", "B")] ∧ nodupKeys ((none : Option HMap).getD []) ∧
    ("A" ∈ mapKeys [("A", "B")] →
      countKey (sendRequest (newClientWithURL "u" "K" "S")
        (some [("A", "B")])).reqHeaders "A" = 2) ∧
    ((newClientWithURL "u" "K" "S").auth = some ⟨"K", "S"⟩ →
      List.count (HeaderXTxcPayload, base64Encode [])
        (sendPost (newClientWithURL "u" "K" "S") none []).reqHeaders = 2 ∧
      List.count (HeaderXTxcSignature,
          hexEncode (hmacSHA512 (strBytes ("S" : String))
            (strBytes (base64Encode []))))
        (sendPost (newClientWithURL "u" "K" "S") none []).reqHeaders = 2) := by
  have h := headers_added_twice_spec (newClientWithURL "u" "K" "S") [("A", "B")]
    "A" ⟨"K", "S"⟩ none [] (by decide) (by decide)
  exact ⟨by decide, by decide, h.1, h.2⟩

/-- Claim C10: `sendPost` mutates the caller-supplied header map in place: after
the call the caller's (non-nil) map holds the computed payload and
signature entries, and — through the merge — the `Content-type` and
API-key entries for keys the caller left empty, while a non-empty
caller-supplied `Content-type` survives. -/
theorem sendPost_mutates_caller_map_spec :
    ∀ (c : client) (a : auth) (m : HMap) (body : List Nat),
      c.auth = some a →
      ∃ m', (sendPost c (some m) body).addlAfter = some m' ∧
        mapGet m' HeaderXTxcPayload = base64Encode body ∧
        mapGet m' HeaderXTxcSignature =
          hexEncode (hmacSHA512 (strBytes a.APISecret)
            (strBytes (base64Encode body))) ∧
        (mapGet m "Content-type" = "" →
          mapGet m' "Content-type" = "application/json") ∧
        (mapGet m "Content-type" ≠ "" →
          mapGet m' "Content-type" = mapGet m "Content-type") ∧
        (mapGet m HeaderXTxcAPIKey = "" →
          mapGet m' HeaderXTxcAPIKey = a.APIKey) := by
  intro c a m body hc
  obtain ⟨m2, hm2, hmg, hreq, hafter⟩ := sendPost_auth_m2 c a hc (some m) body
  obtain ⟨hg_payl, hg_sig, -, -⟩ := sendPost_m2_facts a (some m) body m2 hm2
  have hm2' : m2 = mapSet (mapSet m HeaderXTxcPayload (base64Encode body))
      HeaderXTxcSignature
      (hexEncode (hmacSHA512 (strBytes a.APISecret)
        (strBytes (base64Encode body)))) := hm2
  have hct2 : mapGet m2 "Content-type" = mapGet m "Content-type" := by
    rw [hm2', mapGet_set_other _ _ _ _
      (show HeaderXTxcSignature ≠ "Content-type" by decide),
      mapGet_set_other _ _ _ _
      (show HeaderXTxcPayload ≠ "Content-type" by decide)]
  have hak2 : mapGet m2 HeaderXTxcAPIKey = mapGet m HeaderXTxcAPIKey := by
    rw [hm2', mapGet_set_other _ _ _ _
      (show HeaderXTxcSignature ≠ HeaderXTxcAPIKey by decide),
      mapGet_set_other _ _ _ _
      (show HeaderXTxcPayload ≠ HeaderXTxcAPIKey by decide)]
  obtain ⟨hmge_payl, hmge_sig⟩ := mergeList_thisHeaders_payl_sig c a hc m2
  refine ⟨mergeList m2 (thisHeaders c), hafter, ?_, ?_, ?_, ?_, ?_⟩
  · rw [hmge_payl, hg_payl]
  · rw [hmge_sig, hg_sig]
  · intro hct
    rw [mapGet_mergeList_thisHeaders_ct, hct2, hct]
    simp
  · intro hct
    rw [mapGet_mergeList_thisHeaders_ct, hct2, if_neg hct]
  · intro hak
    rw [mapGet_mergeList_thisHeaders_ak c a hc, hak2, hak]
    simp

/-- Witness for C10 at a concrete client, an empty caller map and empty
body. -/
theorem sendPost_mutates_caller_map_spec_witness :
    (newClientWithURL "u" "K" "S").auth = some ⟨"K", "S"⟩ ∧
    (∃ m', (sendPost (newClientWithURL "u" "K" "S") (some []) []).addlAfter =
        some m' ∧
      mapGet m' HeaderXTxcPayload = base64Encode [] ∧
      mapGet m' HeaderXTxcSignature =
        hexEncode (hmacSHA512 (strBytes ("S" : String))
          (strBytes (base64Encode []))) ∧
      (mapGet [] "Content-type" = "" →
        mapGet m' "Content-type" = "application/json") ∧
      (mapGet [] "Content-type" ≠ "" →
        mapGet m' "Content-type" = mapGet [] "Content-type") ∧
      (mapGet [] HeaderXTxcAPIKey = "" →
        mapGet m' HeaderXTxcAPIKey = ("K" : String))) :=
  ⟨rfl, sendPost_mutates_caller_map_spec (newClientWithURL "u" "K" "S")
    ⟨"K", "S"⟩ [] [] rfl⟩

/-- Claim C4: on any non-200 response, both endpoint methods return the error
(a nil result in Go) whose text is the status-mismatch description
followed by the raw body text verbatim, and the outcome does not depend on
the JSON decoder — the body is never decoded into the typed response. -/
theorem post_non200_error_spec :
    ∀ (resp : response) (d1 d2 : String → Except String AccountBalancesResp)
      (e1 e2 : String → Except String AccountCurrencyBalanceResp),
      resp.StatusCode ≠ 200 →
      PostBalancesHandle d1 resp =
        Except.error (statusErrText [200] resp.StatusCode ++ ": " ++
          resp.Body ++ "\n") ∧
      PostCurrencyBalanceHandle e1 resp =
        Except.error (statusErrText [200] resp.StatusCode ++ ": " ++
          resp.Body ++ "\n") ∧
      (∃ pre suf, statusErrText [200] resp.StatusCode ++ ": " ++
          resp.Body ++ "\n" = pre ++ resp.Body ++ suf) ∧
      (∃ suf, statusErrText [200] resp.StatusCode ++ ": " ++
          resp.Body ++ "\n" = statusErrText [200] resp.StatusCode ++ suf) ∧
      PostBalancesHandle d1 resp = PostBalancesHandle d2 resp ∧
      PostCurrencyBalanceHandle e1 resp = PostCurrencyBalanceHandle e2 resp := by
  intro resp d1 d2 e1 e2 h200
  have hchk : checkHTTPStatus resp [200] =
      some (statusErrText [200] resp.StatusCode) :=
    checkHTTPStatus_err resp [200] (by simpa using h200)
  have h1 : ∀ d : String → Except String AccountBalancesResp,
      PostBalancesHandle d resp =
        Except.error (statusErrText [200] resp.StatusCode ++ ": " ++
          resp.Body ++ "\n") := by
    intro d
    unfold PostBalancesHandle
    rw [hchk]
  have h2 : ∀ e : String → Except String AccountCurrencyBalanceResp,
      PostCurrencyBalanceHandle e resp =
        Except.error (statusErrText [200] resp.StatusCode ++ ": " ++
          resp.Body ++ "\n") := by
    intro e
    unfold PostCurrencyBalanceHandle
    rw [hchk]
  refine ⟨h1 d1, h2 e1,
    ⟨statusErrText [200] resp.StatusCode ++ ": ", "\n", rfl⟩,
    ⟨": " ++ resp.Body ++ "\n", ?_⟩,
    (h1 d1).trans (h1 d2).symm, (h2 e1).trans (h2 e2).symm⟩
  rw [String.append_assoc, String.append_assoc, String.append_assoc]

/-- Witness for C4 at a 400 response with body "bad nonce". -/
theorem post_non200_error_spec_witness :
    (400 : Int) ≠ 200 ∧
    PostBalancesHandle (fun _ => Except.error "decoder ran")
        ⟨[], "bad nonce", 400, ""⟩ =
      Except.error (statusErrText [200] 400 ++ ": " ++ "bad nonce" ++ "\n") := by
  have h := post_non200_error_spec ⟨[], "bad nonce", 400, ""⟩
    (fun _ => Except.error "decoder ran") (fun _ => Except.ok ⟨⟨true, ""⟩, []⟩)
    (fun _ => Except.error "decoder ran") (fun _ => Except.ok ⟨⟨true, ""⟩, ⟨"", ""⟩⟩)
    (by decide)
  exact ⟨by decide, h.1⟩

/-- Counterexample to C5 as stated: with credentials present, the GET
issued through `sendGet` does carry the `X-TXC-APIKEY` header (attached by
the shared `sendRequest`), so `sendGet` is not free of authentication
headers. -/
theorem sendGet_attaches_apikey_counterexample :
    (HeaderXTxcAPIKey, "K") ∈
      (sendGet (newClientWithURL "u" "K" "S") none).reqHeaders := by
  decide

/-- Claim C5 amended: `sendGet` computes no payload or signature header itself —
when the caller's map has neither key, the outgoing GET carries no
`X-TXC-PAYLOAD` and no `X-TXC-SIGNATURE` — but the shared `sendRequest`
still attaches `Content-type` and, for a client holding credentials, the
`X-TXC-APIKEY` header. -/
theorem sendGet_headers_amended_spec :
    ∀ (c : client) (a : auth) (addl : Option HMap),
      c.auth = some a →
      HeaderXTxcPayload ∉ mapKeys (addl.getD []) →
      HeaderXTxcSignature ∉ mapKeys (addl.getD []) →
      HeaderXTxcPayload ∉ mapKeys (sendGet c addl).reqHeaders ∧
      HeaderXTxcSignature ∉ mapKeys (sendGet c addl).reqHeaders ∧
      HeaderXTxcAPIKey ∈ mapKeys (sendGet c addl).reqHeaders ∧
      "Content-type" ∈ mapKeys (sendGet c addl).reqHeaders := by
  intro c a addl hc hp hs
  cases addl with
  | none =>
    have hh : (sendGet c none).reqHeaders = thisHeaders c := by
      show (sendRequest c none).reqHeaders = thisHeaders c
      rw [sendRequest_none]
    rw [hh, mapKeys_thisHeaders_auth c a hc]
    exact ⟨by decide, by decide, by decide, by decide⟩
  | some m =>
    have hp' : HeaderXTxcPayload ∉ mapKeys m := hp
    have hs' : HeaderXTxcSignature ∉ mapKeys m := hs
    have hh : (sendGet c (some m)).reqHeaders = m ++ mergeList m (thisHeaders c) := by
      show (sendRequest c (some m)).reqHeaders = _
      rw [sendRequest_some]
    have hkeys : mapKeys (m ++ mergeList m (thisHeaders c)) =
        mapKeys m ++ mapKeys (mergeList m (thisHeaders c)) := by
      unfold mapKeys
      exact List.map_append _ _ _
    rw [hh, hkeys]
    have hthis := mapKeys_thisHeaders_auth c a hc
    refine ⟨?_, ?_, ?_, ?_⟩
    · intro hmem
      rcases List.mem_append.mp hmem with h | h
      · exact hp' h
      · rcases mapKeys_mergeList_mem _ _ _ h with h | h
        · exact hp' h
        · rw [hthis] at h
          exact absurd h (by decide)
    · intro hmem
      rcases List.mem_append.mp hmem with h | h
      · exact hs' h
      · rcases mapKeys_mergeList_mem _ _ _ h with h | h
        · exact hs' h
        · rw [hthis] at h
          exact absurd h (by decide)
    · exact List.mem_append_right _ (apikey_mem_mergeList_thisHeaders c a hc m)
    · exact List.mem_append_right _ (ct_mem_mergeList_thisHeaders c m)

/-- Witness for the amended C5 at a concrete client with no caller
headers. -/
theorem sendGet_headers_amended_spec_witness :
    (newClientWithURL "u" "K" "S").auth = some ⟨"K", "S"⟩ ∧
    HeaderXTxcPayload ∉ mapKeys ((none : Option HMap).getD []) ∧
    HeaderXTxcSignature ∉ mapKeys ((none : Option HMap).getD []) ∧
    (HeaderXTxcPayload ∉
        mapKeys (sendGet (newClientWithURL "u" "K" "S") none).reqHeaders ∧
      HeaderXTxcSignature ∉
        mapKeys (sendGet (newClientWithURL "u" "K" "S") none).reqHeaders ∧
      HeaderXTxcAPIKey ∈
        mapKeys (sendGet (newClientWithURL "u" "K" "S") none).reqHeaders ∧
      "Content-type" ∈
        mapKeys (sendGet (newClientWithURL "u" "K" "S") none).reqHeaders) :=
  ⟨rfl, by decide, by decide,
    sendGet_headers_amended_spec (newClientWithURL "u" "K" "S") ⟨"K", "S"⟩ none
      rfl (by decide) (by decide)⟩

/-- Counterexample to C6 as stated: a caller-supplied `Content-type` entry
holding the empty string conflicts with the computed
`Content-type: application/json` (the values differ), yet the computed
value — not the caller's — ends up in the merged header map used for the
outgoing request. -/
theorem merge_caller_precedence_counterexample :
    mapGet (sendRequest (newClientWithURL "u" "K" "S")
        (some [("Content-type", "")])).merged "Content-type" =
      "application/json" ∧
    ("" : String) ≠ "application/json" := by
  exact ⟨by decide, by decide⟩

/-- Claim C6 amended: a caller-supplied header value takes precedence over the
transport-computed one exactly when it is non-empty; a caller entry
holding the empty string is overwritten by the computed value
(`application/json` for `Content-type`, the API key for `X-TXC-APIKEY`). -/
theorem merge_caller_precedence_amended_spec :
    ∀ (c : client) (a : auth) (m : HMap) (k : String),
      (mapGet m k ≠ "" →
        mapGet (sendRequest c (some m)).merged k = mapGet m k) ∧
      (mapGet m "Content-type" = "" →
        mapGet (sendRequest c (some m)).merged "Content-type" =
          "application/json") ∧
      (c.auth = some a → mapGet m HeaderXTxcAPIKey = "" →
        mapGet (sendRequest c (some m)).merged HeaderXTxcAPIKey = a.APIKey) := by
  intro c a m k
  have hm : (sendRequest c (some m)).merged = mergeList m (thisHeaders c) := by
    rw [sendRequest_some]
  refine ⟨?_, ?_, ?_⟩
  · intro h
    rw [hm]
    exact mapGet_mergeList_of_ne_empty _ _ _ h
  · intro h
    rw [hm, mapGet_mergeList_thisHeaders_ct, h]
    simp
  · intro hc h
    rw [hm, mapGet_mergeList_thisHeaders_ak c a hc, h]
    simp

/-- Witness for the amended C6: a non-empty caller value survives the
merge, while empty caller slots receive the computed values. -/
theorem merge_caller_precedence_amended_spec_witness :
    mapGet (sendRequest (newClientWithURL "u" "K" "S")
      (some [("X", "Y"), ("Content-type", "")])).merged "X" = "Y" ∧
    mapGet (sendRequest (newClientWithURL "u" "K" "S")
      (some [("X", "Y"), ("Content-type", "")])).merged "Content-type" =
      "application/json" ∧
    mapGet (sendRequest (newClientWithURL "u" "K" "S")
      (some [("X", "Y"), ("Content-type", "")])).merged HeaderXTxcAPIKey =
      "K" := by
  have h := merge_caller_precedence_amended_spec (newClientWithURL "u" "K" "S")
    ⟨"K", "S"⟩ [("X", "Y"), ("Content-type", "")] "X"
  refine ⟨?_, h.2.1 (by decide), h.2.2 rfl (by decide)⟩
  have hx := h.1 (by decide)
  rw [hx]
  decide
